import Mathlib

/-!
Verification of `ocp_resource_report.py`, a reporting script that parses the
templated text output of the OpenShift CLI into tabular records, derives
quota-coverage and limit-coverage statistics, renders pie charts and writes a
spreadsheet report.

The script's text processing is embedded shallowly: Python strings are modelled
as `List Char` and each Python string operation used by the script
(`strip`, `startswith`, `replace`, `split`, `in`, `splitlines`) is given an
executable Lean counterpart with the same semantics.  Python dicts holding the
parsed records become association lists, the pod parser (which can raise
`KeyError` / `ValueError`) returns `Except Unit`, and the aggregation
arithmetic of `main` is carried out over `Int` exactly as Python does.
-/

namespace OcpReport

/-- Python strings, modelled as lists of characters. -/
abbrev Str := List Char

/-- Characters removed by Python's `str.strip()` (ASCII whitespace). -/
def isSpaceChar (c : Char) : Bool :=
  c = ' ' || c = '\t' || c = '\n' || c = '\r' || c = '\x0b' || c = '\x0c'

/-- Python `s.strip()`: remove leading and trailing whitespace. -/
def strip (s : Str) : Str :=
  ((s.dropWhile isSpaceChar).reverse.dropWhile isSpaceChar).reverse

/-- Python `s.startswith(p)`. -/
def startsWith (p s : Str) : Bool := p.isPrefixOf s

/-- Split `s` at the first occurrence of `sep`, returning the parts before and
after it, or `none` when `sep` does not occur (Python `s.split(sep, 1)` /
the `sep in s` test). -/
def splitFirst (sep : Str) : Str → Option (Str × Str)
  | [] => none
  | c :: rest =>
    if sep.isPrefixOf (c :: rest) then some ([], (c :: rest).drop sep.length)
    else
      match splitFirst sep rest with
      | some (a, b) => some (c :: a, b)
      | none => none

/-- Python `sep in s` for a substring `sep`. -/
def containsSub (sep s : Str) : Bool := (splitFirst sep s).isSome

/-- Fuel-driven worker for `splitAll` (the fuel is an upper bound on the
number of splits, so `s.length` always suffices for a nonempty separator). -/
def splitAllAux (sep : Str) : Nat → Str → List Str
  | 0, s => [s]
  | fuel + 1, s =>
    match splitFirst sep s with
    | none => [s]
    | some (a, b) => a :: splitAllAux sep fuel b

/-- Python `s.split(sep)` for a nonempty separator: split at every
non-overlapping occurrence, left to right. -/
def splitAll (sep s : Str) : List Str := splitAllAux sep s.length s

/-- Fuel-driven worker for `replaceAll`. -/
def replaceAllAux (p q : Str) : Nat → Str → Str
  | 0, s => s
  | fuel + 1, s =>
    match s with
    | [] => []
    | c :: rest =>
      if p ≠ [] && p.isPrefixOf (c :: rest) then
        q ++ replaceAllAux p q fuel ((c :: rest).drop p.length)
      else
        c :: replaceAllAux p q fuel rest

/-- Python `s.replace(p, q)` for a nonempty pattern `p`: replace every
non-overlapping occurrence, left to right. -/
def replaceAll (p q s : Str) : Str := replaceAllAux p q s.length s

/-- Python `s.splitlines()` for text whose only line terminator is `'\n'`
(the only terminator the go-template output contains): split on newlines and
drop the empty fragment produced by a trailing newline. -/
def splitlines (s : Str) : List Str :=
  if s = [] then []
  else
    let parts := splitAll ['\n'] s
    if s.getLast? = some '\n' then parts.dropLast else parts

/-- Shorthand for string literals. -/
def toStr (s : String) : Str := s.toList

/-- A Python dict with string keys and values, as an insertion-ordered
association list (each key occurs at most once). -/
abbrev Dict := List (Str × Str)

/-- Python `k in d`. -/
def hasKey (d : Dict) (k : Str) : Bool := d.any (fun p => p.1 == k)

/-- Python `d[k] = v`: overwrite in place when the key exists, else append. -/
def dictInsert (d : Dict) (k v : Str) : Dict :=
  if d.any (fun p => p.1 == k) then
    d.map (fun p => if p.1 == k then (k, v) else p)
  else d ++ [(k, v)]

/-- Python `d.get(k)` / DataFrame column access: the value at `k`, if any. -/
def dictGet (d : Dict) (k : Str) : Option Str :=
  (d.find? (fun p => p.1 == k)).map (·.2)

/-! ### Line-prefix sentinels used by the two parsers -/

def nmName : Str := toStr "Name:"
def nmNamespace : Str := toStr "Namespace:"
def nmResourceQuota : Str := toStr "ResourceQuota:"
def nmSep : Str := toStr "---"
def nmPod : Str := toStr "Pod:"
def nmContainers : Str := toStr "Containers:"
def nmLimitsSep : Str := toStr ",Limits:"
def nmRequestsSep : Str := toStr ",Requests:"
def eqStr : Str := toStr "="
def kName : Str := toStr "Name"
def kNamespace : Str := toStr "Namespace"

/-! ### The command runner (`run_oc_command`) -/

/-- The three ways `subprocess.run` can come back to `run_oc_command`:
normal completion with some stdout, a non-zero exit status
(`CalledProcessError`), or the `oc` binary being absent (`FileNotFoundError`). -/
inductive CmdOutcome
  | success (stdout : Str)
  | exitError
  | notFound

/-- Function `run_oc_command`: return the captured stdout, or `None` (here `none`) on
either failure — both `except` arms print and `return None`. -/
def run_oc_command : CmdOutcome → Option Str
  | .success s => some s
  | .exitError => none
  | .notFound => none

/-! ### The quota parser (`get_namespace_quotas`) -/

/-- One iteration of the `for` loop of `get_namespace_quotas`: the state is
the pair `(data, current_quota)`. -/
def stepQuota (st : List Dict × Dict) (line : Str) : List Dict × Dict :=
  let t := strip line
  if startsWith nmName t then
    (if st.2.isEmpty then st.1 else st.1 ++ [st.2],
     [(kName, strip (replaceAll nmName [] t))])
  else if startsWith nmNamespace t then
    (st.1, dictInsert st.2 kNamespace (strip (replaceAll nmNamespace [] t)))
  else if startsWith nmResourceQuota t then st
  else if startsWith nmSep t then
    (if st.2.isEmpty then st.1 else st.1 ++ [st.2], [])
  else if !t.isEmpty && containsSub eqStr t then
    match splitFirst eqStr t with
    | some (k, v) => (st.1, dictInsert st.2 (strip k) (strip v))
    | none => st
  else st

/-- The loop of `get_namespace_quotas` over the split lines, followed by the
end-of-stream flush `if current_quota and "Name" in current_quota`. -/
def parseQuotaLines (lines : List Str) : List Dict :=
  let p := lines.foldl stepQuota ([], [])
  if !p.2.isEmpty && hasKey p.2 kName then p.1 ++ [p.2] else p.1

/-- Function `get_namespace_quotas` applied to the command runner's result: `None` or
an empty stdout yield an empty DataFrame, otherwise the output is split into
lines and parsed.  (The final DataFrame column reordering does not change the
rows and is not modelled.) -/
def get_namespace_quotas (output : Option Str) : List Dict :=
  match output with
  | none => []
  | some s => if s.isEmpty then [] else parseQuotaLines (splitlines s)

/-! ### The pod parser (`get_pod_resource_limits`) -/

/-- One entry of `current_pod["Containers"]`. -/
structure ContainerRec where
  name : Str
  limits : Str
  requests : Str
deriving DecidableEq

/-- The `current_pod` dict.  Its three possible keys are modelled as `Option`
fields; `containers = some _` only ever arises together with `pod = some _`
because only the `Pod:` branch creates the `Containers` key. -/
structure PodState where
  pod : Option Str
  ns : Option Str
  containers : Option (List ContainerRec)
deriving DecidableEq

/-- Python truthiness of the `current_pod` dict (`if current_pod:`). -/
def PodState.isEmptyDict (s : PodState) : Bool :=
  s.pod.isNone && s.ns.isNone && s.containers.isNone

/-- A row appended to `data` by `get_pod_resource_limits`. -/
structure PodRow where
  podName : Str
  ns : Str
  containerName : Str
  limits : Str
  requests : Str
deriving DecidableEq

/-- The flush loop `for container in current_pod.get("Containers", [])`:
each row reads `current_pod["Pod"]` and `current_pod["Namespace"]`, raising
`KeyError` (modelled as `Except.error ()`) when a container exists but either
key is absent. -/
def flushPod (s : PodState) : Except Unit (List PodRow) :=
  match s.containers.getD [] with
  | [] => .ok []
  | c :: cs =>
    match s.pod, s.ns with
    | some p, some n =>
      .ok ((c :: cs).map (fun k => ⟨p, n, k.name, k.limits, k.requests⟩))
    | _, _ => .error ()

/-- The cleanup applied to each side of a container line:
`.strip().replace("map[", "").replace("]", "").replace(" ", ", ")`. -/
def cleanLR (x : Str) : Str :=
  replaceAll (toStr " ") (toStr ", ")
    (replaceAll (toStr "]") [] (replaceAll (toStr "map[") [] (strip x)))

/-- The stored limits/requests value: the cleaned string, or `""` when the
cleaned string is `"None"`. -/
def lrValue (x : Str) : Str :=
  let c := cleanLR x
  if c = toStr "None" then [] else c

/-- One iteration of the `for` loop of `get_pod_resource_limits`.  Raising
(`KeyError` on a missing `Containers`/`Pod`/`Namespace` key, `ValueError` on
unpacking a `split(",Requests:")` that does not yield exactly two parts) is
modelled as `Except.error ()`. -/
def stepPod (s : PodState) (line : Str) : Except Unit (List PodRow × PodState) :=
  let t := strip line
  if startsWith nmPod t then
    match (if s.isEmptyDict then Except.ok [] else flushPod s) with
    | .error e => .error e
    | .ok rows =>
      .ok (rows, ⟨some (strip (replaceAll nmPod [] t)), none, some []⟩)
  else if startsWith nmNamespace t then
    .ok ([], { s with ns := some (strip (replaceAll nmNamespace [] t)) })
  else if startsWith nmContainers t then
    .ok ([], s)
  else if startsWith nmSep t then
    match (if s.isEmptyDict then Except.ok [] else flushPod s) with
    | .error e => .error e
    | .ok rows => .ok (rows, ⟨none, none, none⟩)
  else if startsWith nmName t && containsSub nmLimitsSep t
      && containsSub nmRequestsSep t then
    let parts := splitAll nmLimitsSep t
    let cname := strip (replaceAll nmName [] (parts.headD []))
    match splitAll nmRequestsSep (parts.getD 1 []) with
    | [a, b] =>
      match s.containers with
      | none => .error ()
      | some cs =>
        .ok ([], { s with containers := some (cs ++ [⟨cname, lrValue a, lrValue b⟩]) })
    | _ => .error ()
  else .ok ([], s)

/-- Run `stepPod` over a list of lines, collecting the emitted rows in order;
an exception anywhere aborts the whole parse, as in Python. -/
def processPodLines : PodState → List Str → Except Unit (List PodRow × PodState)
  | s, [] => .ok ([], s)
  | s, l :: ls => do
    let (r, s') ← stepPod s l
    let (rs, s'') ← processPodLines s' ls
    .ok (r ++ rs, s'')

/-- The loop of `get_pod_resource_limits` followed by the end-of-stream flush
`if current_pod and "Pod" in current_pod`. -/
def parsePodLines (lines : List Str) : Except Unit (List PodRow) := do
  let (rows, s) ← processPodLines ⟨none, none, none⟩ lines
  if !s.isEmptyDict && s.pod.isSome then
    let r ← flushPod s
    .ok (rows ++ r)
  else .ok rows

/-- Function `get_pod_resource_limits` applied to the command runner's result. -/
def get_pod_resource_limits (output : Option Str) : Except Unit (List PodRow) :=
  match output with
  | none => .ok []
  | some s => if s.isEmpty then .ok [] else parsePodLines (splitlines s)

/-! ### The namespace lister (`get_all_namespaces`) -/

/-- Function `get_all_namespaces`: one namespace per output line, stripped, blank
lines dropped; `None` or empty output yields an empty DataFrame. -/
def get_all_namespaces (output : Option Str) : List Str :=
  match output with
  | none => []
  | some s =>
    if s.isEmpty then []
    else (splitlines s).filterMap (fun l =>
      let t := strip l
      if t.isEmpty then none else some t)

/-! ### Aggregation in `main` (lines 243–245 and 301–303) -/

/-- Line 243, `len(namespace_quotas_df['Namespace'].unique()) if not … .empty else 0`:
the number of distinct values of the Namespace column, where a record without
the key contributes the single `NaN` value (here `none`). -/
def namespacesWithQuotasCount (qrecs : List Dict) : Int :=
  if qrecs.isEmpty then 0
  else ((qrecs.map (fun r => dictGet r kNamespace)).dedup.length : Int)

/-- Line 244, `set(all_namespaces_df['Namespace'].unique())`: the distinct cluster
namespace names. -/
def allNamespaceNamesSet (allNs : List Str) : List Str := allNs.dedup

/-- Line 245, `len(all_namespace_names_set) - namespaces_with_quotas_count`, over the
unbounded Python integers. -/
def namespacesWithoutQuotasCount (qrecs : List Dict) (allNs : List Str) : Int :=
  ((allNamespaceNamesSet allNs).length : Int) - namespacesWithQuotasCount qrecs

/-- The string members of `set(namespace_quotas_df['Namespace'].unique())`
(records without the key contribute `NaN`, which equals no string and so
never affects the set differences taken against string sets). -/
def quotaNamespaceSet (qrecs : List Dict) : List Str :=
  (qrecs.filterMap (fun r => dictGet r kNamespace)).dedup

/-- The sorting relation of Python `sorted` on strings: lexicographic by
code point. -/
def strLeR : Str → Str → Prop := fun a b => a ≤ b

instance : DecidableRel strLeR := fun a b => inferInstanceAs (Decidable (a ≤ b))

instance : IsTotal Str strLeR := ⟨fun a b => le_total a b⟩

instance : IsTrans Str strLeR := ⟨fun _ _ _ h h' => le_trans h h'⟩

/-- Python `sorted` on a list of strings. -/
def sortStr (l : List Str) : List Str := l.insertionSort strLeR

/-- Line 302 of `main`:
`sorted(list(all_namespace_names_set - set(namespace_quotas_df['Namespace'].unique())))`
when the quota DataFrame is nonempty, else `sorted(list(all_namespace_names_set))`.
This is the content of the "Namespaces with No Quota" sheet. -/
def namespacesWithoutQuotasList (qrecs : List Dict) (allNs : List Str) : List Str :=
  if qrecs.isEmpty then sortStr (allNamespaceNamesSet allNs)
  else
    sortStr ((allNamespaceNamesSet allNs).filter
      (fun n => !((quotaNamespaceSet qrecs).contains n)))

/-! ### The chart renderer (`create_pie_chart`) and its caller -/

/-- Function `create_pie_chart`: when the counts sum to zero nothing is drawn and
`None` is returned, otherwise the chart is saved and its path returned.
Counts are `Int` because `main` can pass a negative
`namespaces_without_quotas_count`. -/
def create_pie_chart (data_counts : List (Str × Int)) (output_path : Str) :
    Option Str :=
  if (data_counts.map (·.2)).sum = 0 then none else some output_path

/-- The caller pattern of `main` (lines 273–289) for one chart: call the
renderer only when the counts sum is positive, and record the returned path
in `chart_files` only when a chart was produced. -/
def addChartIfPositive (data : List (Str × Int)) (path : Str)
    (files : List Str) : List Str :=
  if 0 < (data.map (·.2)).sum then
    match create_pie_chart data path with
    | some p => files ++ [p]
    | none => files
  else files

/-! ### Report writing and chart-file cleanup (`main`, lines 312–371) -/

/-- Whether the `pd.ExcelWriter` block ran to completion or raised (the
`except Exception` arm). -/
inductive WriteOutcome
  | success
  | failure

/-- One iteration of the `finally` loop: `os.remove(chart_file)` deletes the
path when it exists; the `OSError` of a missing path is caught and leaves the
file system unchanged. -/
def removeFileIfExists (fs : List Str) (f : Str) : List Str :=
  if fs.contains f then fs.filter (fun g => !(g == f)) else fs

/-- The `finally` block: attempt to remove every recorded chart file. -/
def cleanupChartFiles (fs : List Str) (chartFiles : List Str) : List Str :=
  chartFiles.foldl removeFileIfExists fs

/-- The report-writing phase as it acts on the set of files: whether the
`try` body succeeds or raises, the `finally` block runs and the resulting
file system is the same. -/
def reportWritePhase (outcome : WriteOutcome) (fs : List Str)
    (chartFiles : List Str) : List Str :=
  match outcome with
  | .success => cleanupChartFiles fs chartFiles
  | .failure => cleanupChartFiles fs chartFiles

/-! ### Well-formed listings

The go-template of the quota query emits, per quota object, a `Name:` line,
a `Namespace:` line, a `ResourceQuota:` line and one indented `key=value`
line per hard limit, terminated by a `---` sentinel line.  A block is *good*
when its first two lines carry those two prefixes and no later line of the
block strips to something beginning with `Name:` or `---` (which would end
the record early).  The conditions are exactly the prefix tests the parser
itself performs, so they are decidable and hold for every listing the
template can produce. -/

/-- Lines allowed after the `Namespace:` line of a quota block. -/
def goodQuotaBodyLine (l : Str) : Bool :=
  !startsWith nmName (strip l) && !startsWith nmSep (strip l)

/-- A well-formed quota block (before its `---` separator). -/
def goodQuotaBlock (b : List Str) : Bool :=
  match b with
  | nl :: sl :: rest =>
    startsWith nmName (strip nl) &&
    (!startsWith nmName (strip sl) && startsWith nmNamespace (strip sl)) &&
    rest.all goodQuotaBodyLine
  | _ => false

/-- The line stream of a quota listing: the blocks each followed by the
sentinel, with `trailing := false` dropping the final sentinel to model a
truncated stream. -/
def quotaListingLines (blocks : List (List Str)) (trailing : Bool) : List Str :=
  let full := (blocks.map (fun b => b ++ [nmSep])).flatten
  if trailing then full else full.dropLast

/-- The guard of the container branch of the pod parser. -/
def isContainerLine (t : Str) : Bool :=
  startsWith nmName t && containsSub nmLimitsSep t && containsSub nmRequestsSep t

/-- Whether the `limits_str, requests_str = … .split(",Requests:")` unpacking
of a container line succeeds (exactly two parts). -/
def splitOkB (t : Str) : Bool :=
  (splitAll nmRequestsSep ((splitAll nmLimitsSep t).getD 1 [])).length == 2

/-- The container record a container line parses to. -/
def parseContainer (t : Str) : ContainerRec :=
  let parts := splitAll nmLimitsSep t
  let cname := strip (replaceAll nmName [] (parts.headD []))
  match splitAll nmRequestsSep (parts.getD 1 []) with
  | [a, b] => ⟨cname, lrValue a, lrValue b⟩
  | _ => ⟨cname, [], []⟩

/-- A pod block of the pod listing: its `Pod:` line, its `Namespace:` line and
the remaining body lines before the `---` sentinel. -/
structure PodBlock where
  podLine : Str
  nsLine : Str
  body : List Str

/-- The lines a pod block contributes to the stream. -/
def PodBlock.lines (b : PodBlock) : List Str :=
  b.podLine :: b.nsLine :: (b.body ++ [nmSep])

/-- The full pod listing line stream. -/
def podListingLines (bs : List PodBlock) : List Str :=
  (bs.map PodBlock.lines).flatten

/-- Lines allowed in the body of a pod block: nothing that starts a new pod,
renames the namespace or ends the record early, and any container line must
not carry the `Containers:` prefix and must unpack cleanly. -/
def goodPodBodyLine (l : Str) : Bool :=
  let t := strip l
  !startsWith nmPod t && !startsWith nmNamespace t && !startsWith nmSep t &&
  (!isContainerLine t || (!startsWith nmContainers t && splitOkB t))

/-- A well-formed pod block. -/
def goodPodBlock (b : PodBlock) : Bool :=
  startsWith nmPod (strip b.podLine) &&
  (!startsWith nmPod (strip b.nsLine) && startsWith nmNamespace (strip b.nsLine)) &&
  b.body.all goodPodBodyLine

/-- The pod name a block's `Pod:` line parses to. -/
def podVal (b : PodBlock) : Str :=
  strip (replaceAll nmPod [] (strip b.podLine))

/-- The namespace a block's `Namespace:` line parses to. -/
def nsVal (b : PodBlock) : Str :=
  strip (replaceAll nmNamespace [] (strip b.nsLine))

/-- The step collecting the container records of a block's body. -/
def contStep (cs : List ContainerRec) (l : Str) : List ContainerRec :=
  let t := strip l
  if isContainerLine t && splitOkB t then cs ++ [parseContainer t] else cs

/-- The container records of a block's body, in order. -/
def blockContainers (body : List Str) : List ContainerRec :=
  body.foldl contStep []

/-- The rows a well-formed pod block contributes to the parse result. -/
def blockRows (b : PodBlock) : List PodRow :=
  (blockContainers b.body).map (fun c => ⟨podVal b, nsVal b, c.name, c.limits, c.requests⟩)

/-- A line the pod parser ignores: nonempty after stripping, carrying none of
the recognized prefixes, and not a complete container line — this includes a
container line missing the `,Limits:` or `,Requests:` sub-delimiter. -/
def malformedPodLine (l : Str) : Bool :=
  let t := strip l
  !t.isEmpty && !startsWith nmPod t && !startsWith nmNamespace t &&
  !startsWith nmContainers t && !startsWith nmSep t && !isContainerLine t

/-- A line the quota parser ignores: carrying none of the recognized prefixes
and (when nonempty) missing the `=` of a `key=value` field. -/
def malformedQuotaLine (l : Str) : Bool :=
  let t := strip l
  !startsWith nmName t && !startsWith nmNamespace t &&
  !startsWith nmResourceQuota t && !startsWith nmSep t && !containsSub eqStr t

/-! ### Helper lemmas about the dict model -/

theorem hasKey_dictInsert_self (d : Dict) (k v : Str) :
    hasKey (dictInsert d k v) k = true := by
  unfold hasKey dictInsert
  by_cases hk : d.any (fun p => p.1 == k) = true
  · rcases List.any_eq_true.mp hk with ⟨p, hp, hpk⟩
    simp only [hk, if_pos]
    refine List.any_eq_true.mpr ⟨(k, v), ?_, by simp⟩
    refine List.mem_map.mpr ⟨p, hp, ?_⟩
    simp [hpk]
  · simp [hk]

theorem hasKey_dictInsert_mono (d : Dict) (k v k' : Str)
    (h : hasKey d k' = true) : hasKey (dictInsert d k v) k' = true := by
  unfold hasKey at h ⊢
  unfold dictInsert
  rcases List.any_eq_true.mp h with ⟨p, hp, hpk⟩
  by_cases hk : d.any (fun q => q.1 == k) = true
  · simp only [hk, if_pos]
    refine List.any_eq_true.mpr ⟨_, List.mem_map_of_mem _ hp, ?_⟩
    by_cases hpk2 : (p.1 == k) = true
    · have h1 : p.1 = k' := by simpa using hpk
      have h2 : p.1 = k := by simpa using hpk2
      simp [hpk2, ← h2, h1]
    · simp only [hpk2]
      simpa using hpk
  · simp only [hk, if_neg, Bool.false_eq_true, not_false_iff]
    refine List.any_eq_true.mpr ⟨p, ?_, hpk⟩
    simp [hp]

theorem hasKey_ne_nil (d : Dict) (k : Str) (h : hasKey d k = true) :
    d.isEmpty = false := by
  cases d with
  | nil => simp [hasKey] at h
  | cons p d => rfl

/-! ### The quota parser on well-formed listings (C1) -/

theorem strip_sep : strip nmSep = nmSep := by decide

theorem sep_not_name : startsWith nmName nmSep = false := by decide
theorem sep_not_ns : startsWith nmNamespace nmSep = false := by decide
theorem sep_not_rq : startsWith nmResourceQuota nmSep = false := by decide
theorem sep_is_sep : startsWith nmSep nmSep = true := by decide

/-- A good body line leaves `data` unchanged and preserves the `Name` and
`Namespace` keys of the accumulator. -/
theorem stepQuota_body (l : Str) (hl : goodQuotaBodyLine l = true)
    (data : List Dict) (acc : Dict)
    (hn : hasKey acc kName = true) (hns : hasKey acc kNamespace = true) :
    ∃ acc', stepQuota (data, acc) l = (data, acc') ∧
      hasKey acc' kName = true ∧ hasKey acc' kNamespace = true := by
  unfold goodQuotaBodyLine at hl
  rw [Bool.and_eq_true, Bool.not_eq_true', Bool.not_eq_true'] at hl
  obtain ⟨h1, h4⟩ := hl
  unfold stepQuota
  simp only [h1, Bool.false_eq_true, if_false, h4]
  by_cases h2 : startsWith nmNamespace (strip l) = true
  · refine ⟨dictInsert acc kNamespace (strip (replaceAll nmNamespace [] (strip l))),
      ?_, hasKey_dictInsert_mono _ _ _ _ hn, hasKey_dictInsert_self _ _ _⟩
    simp [h2]
  · simp only [h2, Bool.false_eq_true, if_false]
    by_cases h3 : startsWith nmResourceQuota (strip l) = true
    · exact ⟨acc, by simp [h3], hn, hns⟩
    · simp only [h3, Bool.false_eq_true, if_false]
      by_cases h5 : (!(strip l).isEmpty && containsSub eqStr (strip l)) = true
      · simp only [h5, if_pos]
        have : (splitFirst eqStr (strip l)).isSome = true := by
          rw [Bool.and_eq_true] at h5
          exact h5.2
        match hsp : splitFirst eqStr (strip l) with
        | some (k, v) =>
          refine ⟨dictInsert acc (strip k) (strip v), ?_,
            hasKey_dictInsert_mono _ _ _ _ hn,
            hasKey_dictInsert_mono _ _ _ _ hns⟩
          simp [hsp]
        | none => simp [hsp] at this
      · exact ⟨acc, by simp [h5], hn, hns⟩

/-- Folding good body lines keeps `data` and the two record keys. -/
theorem foldQuota_body (ls : List Str) (hls : ls.all goodQuotaBodyLine = true)
    (data : List Dict) (acc : Dict)
    (hn : hasKey acc kName = true) (hns : hasKey acc kNamespace = true) :
    ∃ acc', ls.foldl stepQuota (data, acc) = (data, acc') ∧
      hasKey acc' kName = true ∧ hasKey acc' kNamespace = true := by
  induction ls generalizing acc with
  | nil => exact ⟨acc, rfl, hn, hns⟩
  | cons l ls ih =>
    rw [List.all_cons, Bool.and_eq_true] at hls
    obtain ⟨acc1, heq, hn1, hns1⟩ := stepQuota_body l hls.1 data acc hn hns
    obtain ⟨acc', heq', hn', hns'⟩ := ih hls.2 acc1 hn1 hns1
    exact ⟨acc', by rw [List.foldl_cons, heq, heq'], hn', hns'⟩

/-- A good quota block processed from a flushed state ends with the block's
record as the accumulator, leaving `data` untouched. -/
theorem foldQuota_block_noSep (b : List Str) (hb : goodQuotaBlock b = true)
    (data : List Dict) :
    ∃ acc, b.foldl stepQuota (data, []) = (data, acc) ∧
      hasKey acc kName = true ∧ hasKey acc kNamespace = true := by
  match b with
  | nl :: sl :: rest =>
    unfold goodQuotaBlock at hb
    rw [Bool.and_eq_true, Bool.and_eq_true, Bool.and_eq_true,
      Bool.not_eq_true'] at hb
    obtain ⟨⟨hnl, hsl1, hsl2⟩, hrest⟩ := hb
    have e1 : stepQuota (data, []) nl
        = (data, [(kName, strip (replaceAll nmName [] (strip nl)))]) := by
      unfold stepQuota
      simp [hnl]
    have hk1 : hasKey [(kName, strip (replaceAll nmName [] (strip nl)))] kName
        = true := by simp [hasKey]
    have e2 : stepQuota (data, [(kName, strip (replaceAll nmName [] (strip nl)))]) sl
        = (data, dictInsert [(kName, strip (replaceAll nmName [] (strip nl)))]
            kNamespace (strip (replaceAll nmNamespace [] (strip sl)))) := by
      unfold stepQuota
      simp [hsl1, hsl2]
    obtain ⟨acc', heq', hn', hns'⟩ := foldQuota_body rest hrest data _
      (hasKey_dictInsert_mono _ _ _ _ hk1) (hasKey_dictInsert_self _ _ _)
    refine ⟨acc', ?_, hn', hns'⟩
    rw [List.foldl_cons, e1, List.foldl_cons, e2, heq']

/-- Processing the separator from a nonempty accumulator flushes it. -/
theorem stepQuota_sep (data : List Dict) (acc : Dict)
    (h : acc.isEmpty = false) :
    stepQuota (data, acc) nmSep = (data ++ [acc], []) := by
  unfold stepQuota
  simp [strip_sep, sep_not_name, sep_not_ns, sep_not_rq, sep_is_sep, h]

/-- A good quota block followed by its separator appends exactly one record. -/
theorem foldQuota_block (b : List Str) (hb : goodQuotaBlock b = true)
    (data : List Dict) :
    ∃ rec, (b ++ [nmSep]).foldl stepQuota (data, []) = (data ++ [rec], []) ∧
      hasKey rec kName = true ∧ hasKey rec kNamespace = true := by
  obtain ⟨acc, heq, hn, hns⟩ := foldQuota_block_noSep b hb data
  refine ⟨acc, ?_, hn, hns⟩
  rw [List.foldl_append, heq, List.foldl_cons, List.foldl_nil,
    stepQuota_sep data acc (hasKey_ne_nil acc kName hn)]

/-- A sequence of good quota blocks, each followed by the separator, appends
one record per block. -/
theorem foldQuota_listing (blocks : List (List Str))
    (h : blocks.all goodQuotaBlock = true) (data : List Dict) :
    ∃ recs, ((blocks.map (fun b => b ++ [nmSep])).flatten).foldl stepQuota
        (data, []) = (data ++ recs, []) ∧
      recs.length = blocks.length ∧
      ∀ r ∈ recs, hasKey r kName = true ∧ hasKey r kNamespace = true := by
  induction blocks generalizing data with
  | nil => exact ⟨[], by simp, rfl, by simp⟩
  | cons b bs ih =>
    rw [List.all_cons, Bool.and_eq_true] at h
    obtain ⟨rec, h1, hk1, hk2⟩ := foldQuota_block b h.1 data
    obtain ⟨recs, h2, hlen, hmem⟩ := ih h.2 (data ++ [rec])
    refine ⟨rec :: recs, ?_, by simp [hlen], ?_⟩
    · rw [List.map_cons, List.flatten_cons, List.foldl_append, h1, h2]
      simp
    · intro r hr
      rcases List.mem_cons.mp hr with hr | hr
      · exact hr ▸ ⟨hk1, hk2⟩
      · exact hmem r hr

/-- C1: for every well-formed quota-listing text of `N` quota blocks separated
by the `---` sentinel line, `get_namespace_quotas`'s parser produces exactly
`N` records, each containing at least the `Name` and `Namespace` keys; this
includes the case where the final block is not terminated by a trailing
separator (`trailing = false`), which is still flushed at end-of-stream. -/
theorem quota_parser_counts_blocks (blocks : List (List Str)) (trailing : Bool)
    (h : blocks.all goodQuotaBlock = true) :
    (parseQuotaLines (quotaListingLines blocks trailing)).length = blocks.length ∧
    ∀ r ∈ parseQuotaLines (quotaListingLines blocks trailing),
      hasKey r kName = true ∧ hasKey r kNamespace = true := by
  cases trailing with
  | true =>
    obtain ⟨recs, hfold, hlen, hmem⟩ := foldQuota_listing blocks h []
    have hp : parseQuotaLines (quotaListingLines blocks true) = recs := by
      unfold parseQuotaLines quotaListingLines
      simp [hfold]
    rw [hp]
    exact ⟨hlen, hmem⟩
  | false =>
    rcases List.eq_nil_or_concat blocks with hnil | ⟨L, b, hcat⟩
    · subst hnil
      exact ⟨rfl, by simp [quotaListingLines, parseQuotaLines]⟩
    · subst hcat
      rw [List.concat_eq_append] at *
      rw [List.all_append, List.all_cons, List.all_nil, Bool.and_eq_true,
        Bool.and_eq_true] at h
      obtain ⟨hL, hb, -⟩ := h
      obtain ⟨recs, hfold, hlen, hmem⟩ := foldQuota_listing L hL []
      obtain ⟨acc, hfold2, hn, hns⟩ := foldQuota_block_noSep b hb ([] ++ recs)
      have hlines : quotaListingLines (L ++ [b]) false
          = ((L.map (fun x => x ++ [nmSep])).flatten) ++ b := by
        unfold quotaListingLines
        simp only [if_neg, Bool.false_eq_true, not_false_iff, List.map_append,
          List.map_cons, List.map_nil, List.flatten_append, List.flatten_cons,
          List.flatten_nil, List.append_nil]
        rw [← List.append_assoc, List.dropLast_concat]
      have hp : parseQuotaLines (quotaListingLines (L ++ [b]) false)
          = recs ++ [acc] := by
        unfold parseQuotaLines
        rw [hlines, List.foldl_append, hfold, hfold2]
        simp [hasKey_ne_nil acc kName hn, hn]
      rw [hp]
      constructor
      · simp [hlen]
      · intro r hr
        rcases List.mem_append.mp hr with hr | hr
        · exact hmem r hr
        · rw [List.mem_singleton.mp hr]
          exact ⟨hn, hns⟩

/-- Witness for C1: a single-block listing with no trailing separator parses
to exactly one record carrying both keys. -/
theorem quota_parser_counts_blocks_witness :
    ([[toStr "Name:q1", toStr "Namespace:a", toStr "  cpu=2"]].all
        goodQuotaBlock = true) ∧
    ((parseQuotaLines (quotaListingLines
        [[toStr "Name:q1", toStr "Namespace:a", toStr "  cpu=2"]] false)).length
      = 1 ∧
     ∀ r ∈ parseQuotaLines (quotaListingLines
        [[toStr "Name:q1", toStr "Namespace:a", toStr "  cpu=2"]] false),
      hasKey r kName = true ∧ hasKey r kNamespace = true) :=
  ⟨by decide, quota_parser_counts_blocks
    [[toStr "Name:q1", toStr "Namespace:a", toStr "  cpu=2"]] false (by decide)⟩

/-! ### The pod parser on well-formed listings (C2, C9) -/

theorem sep_not_pod : startsWith nmPod nmSep = false := by decide
theorem sep_not_containers : startsWith nmContainers nmSep = false := by decide

/-- Reduction of the `Except` monad's bind on a success value. -/
theorem okBind {ε α β : Type} (a : α) (f : α → Except ε β) :
    (Except.ok a : Except ε α) >>= f = f a := rfl

/-- Reduction of the `Except` monad's bind on a failure value. -/
theorem errBind {ε α β : Type} (e : ε) (f : α → Except ε β) :
    (Except.error e : Except ε α) >>= f = .error e := rfl

/-- Processing a concatenation of line lists runs them in sequence. -/
theorem processPodLines_append (X Y : List Str) (s : PodState) :
    processPodLines s (X ++ Y) =
      match processPodLines s X with
      | .error e => .error e
      | .ok (r, s') =>
        match processPodLines s' Y with
        | .error e => .error e
        | .ok (r2, s'') => .ok (r ++ r2, s'') := by
  induction X generalizing s with
  | nil =>
    simp only [List.nil_append, processPodLines]
    cases hres : processPodLines s Y with
    | error e => rfl
    | ok p => cases p; rfl
  | cons l ls ih =>
    cases hstep : stepPod s l with
    | error e => simp [processPodLines, hstep, errBind]
    | ok p =>
      obtain ⟨r, s'⟩ := p
      cases hres : processPodLines s' ls with
      | error e =>
        simp [processPodLines, hstep, okBind, errBind, ih, hres]
      | ok q =>
        obtain ⟨rs, s''⟩ := q
        cases hres2 : processPodLines s'' Y with
        | error e =>
          simp [processPodLines, hstep, okBind, errBind, ih, hres, hres2]
        | ok w =>
          cases w
          simp [processPodLines, hstep, okBind, errBind, ih, hres, hres2]

/-- A good body line of a pod block: no rows are emitted, the pod and
namespace entries are kept, and the container list grows by `contStep`. -/
theorem stepPod_body (l : Str) (hl : goodPodBodyLine l = true)
    (p n : Str) (cs : List ContainerRec) :
    stepPod ⟨some p, some n, some cs⟩ l
      = .ok ([], ⟨some p, some n, some (contStep cs l)⟩) := by
  unfold goodPodBodyLine at hl
  rw [Bool.and_eq_true, Bool.and_eq_true, Bool.and_eq_true,
    Bool.not_eq_true', Bool.not_eq_true', Bool.not_eq_true'] at hl
  obtain ⟨⟨⟨h1, h2⟩, h3⟩, h4⟩ := hl
  unfold stepPod contStep
  simp only [h1, h2, h3, Bool.false_eq_true, if_false]
  by_cases hc : startsWith nmContainers (strip l) = true
  · have hic : isContainerLine (strip l) = false := by
      by_contra hx
      rw [Bool.not_eq_false] at hx
      rw [hx, hc] at h4
      simp at h4
    have hicraw : (startsWith nmName (strip l)
        && containsSub nmLimitsSep (strip l)
        && containsSub nmRequestsSep (strip l)) = false := hic
    simp [hc, hic, hicraw]
  · simp only [hc, Bool.false_eq_true, if_false]
    by_cases hic : isContainerLine (strip l) = true
    · have hok : splitOkB (strip l) = true := by
        rw [hic] at h4
        simpa [hc] using h4
      have hlen : (splitAll nmRequestsSep
          ((splitAll nmLimitsSep (strip l)).getD 1 [])).length = 2 := by
        have := hok
        rw [splitOkB] at this
        simpa using this
      obtain ⟨a, b, hab⟩ := List.length_eq_two.mp hlen
      have hicraw : (startsWith nmName (strip l)
          && containsSub nmLimitsSep (strip l)
          && containsSub nmRequestsSep (strip l)) = true := hic
      simp only [hicraw, if_pos, hab, hic, hok, Bool.and_self, Bool.true_and]
      simp only [parseContainer, hab]
    · have hicraw : (startsWith nmName (strip l)
          && containsSub nmLimitsSep (strip l)
          && containsSub nmRequestsSep (strip l)) = false := by
        rw [Bool.not_eq_true] at hic
        exact hic
      rw [Bool.not_eq_true] at hic
      simp [hicraw, hic]

/-- Folding the good body lines of a block collects its container records. -/
theorem processPodLines_body (body : List Str)
    (hb : body.all goodPodBodyLine = true) (p n : Str) (cs : List ContainerRec) :
    processPodLines ⟨some p, some n, some cs⟩ body
      = .ok ([], ⟨some p, some n, some (body.foldl contStep cs)⟩) := by
  induction body generalizing cs with
  | nil => rfl
  | cons l ls ih =>
    rw [List.all_cons, Bool.and_eq_true] at hb
    simp only [processPodLines, stepPod_body l hb.1 p n cs, okBind,
      ih hb.2, List.foldl_cons]
    rfl

/-- Flushing a fully populated pod state emits one row per container. -/
theorem flushPod_full (p n : Str) (cs : List ContainerRec) :
    flushPod ⟨some p, some n, some cs⟩
      = .ok (cs.map (fun c => ⟨p, n, c.name, c.limits, c.requests⟩)) := by
  cases cs with
  | nil => rfl
  | cons c cs => rfl

/-- Processing the separator from a fully populated pod state flushes its
container rows and resets to the empty dict. -/
theorem stepPod_sep_full (p n : Str) (cs : List ContainerRec) :
    stepPod ⟨some p, some n, some cs⟩ nmSep
      = .ok (cs.map (fun c => ⟨p, n, c.name, c.limits, c.requests⟩),
          ⟨none, none, none⟩) := by
  have hemp : (PodState.mk (some p) (some n) (some cs)).isEmptyDict = false := rfl
  unfold stepPod
  rw [strip_sep]
  simp only [sep_not_pod, sep_not_ns, sep_not_containers, sep_is_sep,
    Bool.false_eq_true, if_false, if_true, hemp, flushPod_full]

/-- A good pod block processed from the empty state emits exactly its
`blockRows` and returns to the empty state. -/
theorem processPodLines_block (b : PodBlock) (hb : goodPodBlock b = true) :
    processPodLines ⟨none, none, none⟩ b.lines
      = .ok (blockRows b, ⟨none, none, none⟩) := by
  unfold goodPodBlock at hb
  rw [Bool.and_eq_true, Bool.and_eq_true, Bool.and_eq_true,
    Bool.not_eq_true'] at hb
  obtain ⟨⟨hpl, hnl1, hnl2⟩, hbody⟩ := hb
  have e1 : stepPod ⟨none, none, none⟩ b.podLine
      = .ok ([], ⟨some (podVal b), none, some []⟩) := by
    unfold stepPod podVal
    simp [hpl, PodState.isEmptyDict]
  have e2 : stepPod ⟨some (podVal b), none, some []⟩ b.nsLine
      = .ok ([], ⟨some (podVal b), some (nsVal b), some []⟩) := by
    unfold stepPod nsVal
    simp [hnl1, hnl2]
  have e5 : processPodLines ⟨some (podVal b), some (nsVal b),
      some (List.foldl contStep [] b.body)⟩ [nmSep]
      = .ok (blockRows b, ⟨none, none, none⟩) := by
    simp only [processPodLines,
      stepPod_sep_full (podVal b) (nsVal b) (List.foldl contStep [] b.body),
      okBind]
    simp [blockRows, blockContainers]
  show processPodLines ⟨none, none, none⟩
    (b.podLine :: b.nsLine :: (b.body ++ [nmSep])) = _
  rw [processPodLines, e1]
  simp only [okBind]
  rw [processPodLines, e2]
  simp only [okBind]
  rw [processPodLines_append, processPodLines_body b.body hbody (podVal b)
    (nsVal b) []]
  dsimp only
  rw [e5]
  rfl

/-- A listing of good pod blocks parses cleanly, emitting the concatenation
of the per-block rows. -/
theorem processPodLines_listing (bs : List PodBlock)
    (h : bs.all goodPodBlock = true) :
    processPodLines ⟨none, none, none⟩ (podListingLines bs)
      = .ok (bs.flatMap blockRows, ⟨none, none, none⟩) := by
  induction bs with
  | nil => rfl
  | cons b bs ih =>
    rw [List.all_cons, Bool.and_eq_true] at h
    have : podListingLines (b :: bs) = b.lines ++ podListingLines bs := by
      simp [podListingLines]
    rw [this, processPodLines_append, processPodLines_block b h.1]
    dsimp only
    rw [ih h.2]
    simp

/-- Parsing succeeds on every well-formed pod on every well-formed pod
listing, returning exactly the per-block rows. -/
theorem parsePodLines_wf (bs : List PodBlock) (h : bs.all goodPodBlock = true) :
    parsePodLines (podListingLines bs) = .ok (bs.flatMap blockRows) := by
  unfold parsePodLines
  rw [processPodLines_listing bs h]
  simp only [okBind]
  simp [PodState.isEmptyDict]

/-- A body with no container lines collects no container records. -/
theorem blockContainers_of_no_container_lines (body : List Str)
    (h : body.all (fun l => !isContainerLine (strip l)) = true) :
    blockContainers body = [] := by
  unfold blockContainers
  suffices hgen : ∀ cs, body.foldl contStep cs = cs from hgen []
  intro cs
  induction body generalizing cs with
  | nil => rfl
  | cons l ls ih =>
    rw [List.all_cons, Bool.and_eq_true, Bool.not_eq_true'] at h
    rw [List.foldl_cons]
    have : contStep cs l = cs := by
      unfold contStep
      simp [h.1]
    rw [this, ih h.2]

/-- C9: on a well-formed pod listing the parser emits exactly the per-block
container rows, and a pod block containing zero container lines contributes
zero rows — no row with an absent container name is ever emitted for it. -/
theorem pod_parser_zero_container_blocks (bs : List PodBlock)
    (h : bs.all goodPodBlock = true) :
    parsePodLines (podListingLines bs) = .ok (bs.flatMap blockRows) ∧
    ∀ b ∈ bs, b.body.all (fun l => !isContainerLine (strip l)) = true →
      blockRows b = [] := by
  refine ⟨parsePodLines_wf bs h, ?_⟩
  intro b hb hnone
  unfold blockRows
  rw [blockContainers_of_no_container_lines b.body hnone]
  rfl

/-- Witness for C9: a listing of two pods, the first with no container lines
and the second with one, parses to exactly the second pod's single row. -/
theorem pod_parser_zero_container_blocks_witness :
    ([(⟨toStr "Pod:p1", toStr "Namespace:n1", [toStr "Containers:"]⟩ : PodBlock),
      ⟨toStr "Pod:p2", toStr "Namespace:n2",
        [toStr "Containers:",
         toStr "  Name:c1,Limits:None,Requests:map[cpu:1]"]⟩].all
      goodPodBlock = true) ∧
    (parsePodLines (podListingLines
        [(⟨toStr "Pod:p1", toStr "Namespace:n1", [toStr "Containers:"]⟩ : PodBlock),
         ⟨toStr "Pod:p2", toStr "Namespace:n2",
          [toStr "Containers:",
           toStr "  Name:c1,Limits:None,Requests:map[cpu:1]"]⟩])
      = .ok ([(⟨toStr "Pod:p1", toStr "Namespace:n1",
               [toStr "Containers:"]⟩ : PodBlock),
              ⟨toStr "Pod:p2", toStr "Namespace:n2",
               [toStr "Containers:",
                toStr "  Name:c1,Limits:None,Requests:map[cpu:1]"]⟩].flatMap
          blockRows) ∧
     ∀ b ∈ [(⟨toStr "Pod:p1", toStr "Namespace:n1",
             [toStr "Containers:"]⟩ : PodBlock),
            ⟨toStr "Pod:p2", toStr "Namespace:n2",
             [toStr "Containers:",
              toStr "  Name:c1,Limits:None,Requests:map[cpu:1]"]⟩],
       b.body.all (fun l => !isContainerLine (strip l)) = true →
         blockRows b = []) :=
  ⟨by decide, pod_parser_zero_container_blocks
    [⟨toStr "Pod:p1", toStr "Namespace:n1", [toStr "Containers:"]⟩,
     ⟨toStr "Pod:p2", toStr "Namespace:n2",
      [toStr "Containers:",
       toStr "  Name:c1,Limits:None,Requests:map[cpu:1]"]⟩] (by decide)⟩

/-- C2 counterexample: a container line appearing before any `Pod:` line makes
`get_pod_resource_limits` raise (`current_pod["Containers"]` is a `KeyError`
on the empty dict), so the pod parser does not tolerate every input line
sequence. -/
theorem pod_parser_raises_on_orphan_container_line :
    get_pod_resource_limits (some (toStr "Name:c,Limits:None,Requests:None"))
      = .error () := rfl

/-- C2 (amended): both collectors silently skip malformed lines — for the pod
parser any stripped nonempty line carrying none of the recognized prefixes and
not forming a complete container line (in particular a container line missing
the `,Limits:` or `,Requests:` sub-delimiter), and for the quota parser any
line missing the `=` of a `key=value` field — and the pod parser never raises
on a well-formed pod listing, in which every container line follows a `Pod:`
line and every flushed pod block has a `Namespace:` line.  (The quota parser
is total by construction; the pod parser can raise when those ordering
conditions are violated, per the counterexample.) -/
theorem parsers_skip_malformed_lines (bs : List PodBlock)
    (hbs : bs.all goodPodBlock = true) (l : Str) (s : PodState)
    (hl : malformedPodLine l = true) (lq : Str) (st : List Dict × Dict)
    (hq : malformedQuotaLine lq = true) :
    (∃ rows, parsePodLines (podListingLines bs) = .ok rows) ∧
    stepPod s l = .ok ([], s) ∧ stepQuota st lq = st := by
  refine ⟨⟨bs.flatMap blockRows, parsePodLines_wf bs hbs⟩, ?_, ?_⟩
  · unfold malformedPodLine at hl
    simp only [Bool.and_eq_true, Bool.not_eq_true'] at hl
    obtain ⟨⟨⟨⟨⟨h0, h1⟩, h2⟩, h3⟩, h4⟩, h5⟩ := hl
    have h5raw : (startsWith nmName (strip l)
        && containsSub nmLimitsSep (strip l)
        && containsSub nmRequestsSep (strip l)) = false := h5
    unfold stepPod
    simp [h1, h2, h3, h4, h5raw]
  · unfold malformedQuotaLine at hq
    simp only [Bool.and_eq_true, Bool.not_eq_true'] at hq
    obtain ⟨⟨⟨⟨h1, h2⟩, h3⟩, h4⟩, h5⟩ := hq
    unfold stepQuota
    simp [h1, h2, h3, h4, h5]

/-- Witness for C2 (amended): a one-pod listing parses cleanly, a container
line missing its `,Requests:` delimiter is skipped without touching the
state, and a quota field line missing `=` is likewise skipped. -/
theorem parsers_skip_malformed_lines_witness :
    ([(⟨toStr "Pod:pw", toStr "Namespace:nw", [toStr "Containers:"]⟩ :
        PodBlock)].all goodPodBlock = true) ∧
    malformedPodLine (toStr "Name:c,Limits:None") = true ∧
    malformedQuotaLine (toStr "cpu 2") = true ∧
    ((∃ rows, parsePodLines (podListingLines
        [(⟨toStr "Pod:pw", toStr "Namespace:nw", [toStr "Containers:"]⟩ :
          PodBlock)]) = .ok rows) ∧
     stepPod ⟨some (toStr "pw"), none, some []⟩ (toStr "Name:c,Limits:None")
       = .ok ([], ⟨some (toStr "pw"), none, some []⟩) ∧
     stepQuota ([], [(kName, toStr "q")]) (toStr "cpu 2")
       = ([], [(kName, toStr "q")])) :=
  ⟨by decide, by decide, by decide,
    parsers_skip_malformed_lines
      [⟨toStr "Pod:pw", toStr "Namespace:nw", [toStr "Containers:"]⟩]
      (by decide) (toStr "Name:c,Limits:None")
      ⟨some (toStr "pw"), none, some []⟩ (by decide)
      (toStr "cpu 2") ([], [(kName, toStr "q")]) (by decide)⟩

/-! ### The "Namespaces with No Quota" sheet (C3, C4, C5, C10) -/

/-- Membership in the no-quota sheet is exactly "cluster namespace without a
quota record"; the empty-DataFrame branch of line 302 coincides with the set
difference because the quota namespace set is then empty. -/
theorem mem_namespacesWithoutQuotasList (qrecs : List Dict) (allNs : List Str)
    (x : Str) :
    x ∈ namespacesWithoutQuotasList qrecs allNs ↔
      (x ∈ allNamespaceNamesSet allNs ∧ x ∉ quotaNamespaceSet qrecs) := by
  unfold namespacesWithoutQuotasList
  by_cases hq : qrecs.isEmpty = true
  · have hnil : qrecs = [] := by
      cases qrecs with
      | nil => rfl
      | cons r rs => simp [List.isEmpty] at hq
    subst hnil
    rw [if_pos hq, sortStr, (List.perm_insertionSort strLeR _).mem_iff]
    simp [quotaNamespaceSet]
  · rw [if_neg hq, sortStr, (List.perm_insertionSort strLeR _).mem_iff,
      List.mem_filter]
    constructor
    · intro ⟨h1, h2⟩
      refine ⟨h1, fun hmem => ?_⟩
      rw [Bool.not_eq_true'] at h2
      have : (quotaNamespaceSet qrecs).contains x = true :=
        List.elem_iff.mpr hmem
      rw [this] at h2
      cases h2
    · intro ⟨h1, h2⟩
      refine ⟨h1, ?_⟩
      rw [Bool.not_eq_true']
      by_contra hx
      have : (quotaNamespaceSet qrecs).contains x = true := by
        cases hcon : (quotaNamespaceSet qrecs).contains x with
        | true => rfl
        | false => exact absurd hcon hx
      exact h2 (List.elem_iff.mp this)

/-- C4: for every pair of collections, no namespace on the "namespaces
without quota" sheet appears in the quota records' Namespace column; and when
the quota namespaces are a subset of the cluster namespaces, the sheet and
the quota namespace set together cover exactly the cluster namespaces. -/
theorem no_quota_sheet_partitions_namespaces (qrecs : List Dict)
    (allNs : List Str) :
    (∀ x ∈ namespacesWithoutQuotasList qrecs allNs,
      ∀ r ∈ qrecs, dictGet r kNamespace ≠ some x) ∧
    ((∀ x ∈ quotaNamespaceSet qrecs, x ∈ allNamespaceNamesSet allNs) →
     ∀ x, (x ∈ namespacesWithoutQuotasList qrecs allNs ∨
           x ∈ quotaNamespaceSet qrecs) ↔ x ∈ allNamespaceNamesSet allNs) := by
  constructor
  · intro x hx r hr hget
    have hmem := (mem_namespacesWithoutQuotasList qrecs allNs x).mp hx
    refine hmem.2 ?_
    unfold quotaNamespaceSet
    rw [List.mem_dedup, List.mem_filterMap]
    exact ⟨r, hr, hget⟩
  · intro hsub x
    rw [mem_namespacesWithoutQuotasList]
    constructor
    · rintro (⟨h1, _⟩ | hq)
      · exact h1
      · exact hsub x hq
    · intro hx
      by_cases hq : x ∈ quotaNamespaceSet qrecs
      · exact Or.inr hq
      · exact Or.inl ⟨hx, hq⟩

/-- Witness for C4: one quota record on namespace `a` against the cluster
namespaces `a, b`; the subset hypothesis of the union conjunct is discharged
concretely. -/
theorem no_quota_sheet_partitions_namespaces_witness :
    (∀ x ∈ quotaNamespaceSet [[(kName, toStr "q1"), (kNamespace, toStr "a")]],
      x ∈ allNamespaceNamesSet [toStr "a", toStr "b"]) ∧
    ((∀ x ∈ namespacesWithoutQuotasList
        [[(kName, toStr "q1"), (kNamespace, toStr "a")]]
        [toStr "a", toStr "b"],
      ∀ r ∈ [[(kName, toStr "q1"), (kNamespace, toStr "a")]],
        dictGet r kNamespace ≠ some x) ∧
     (∀ x, (x ∈ namespacesWithoutQuotasList
          [[(kName, toStr "q1"), (kNamespace, toStr "a")]]
          [toStr "a", toStr "b"] ∨
        x ∈ quotaNamespaceSet [[(kName, toStr "q1"), (kNamespace, toStr "a")]])
        ↔ x ∈ allNamespaceNamesSet [toStr "a", toStr "b"])) :=
  ⟨by decide,
   (no_quota_sheet_partitions_namespaces
     [[(kName, toStr "q1"), (kNamespace, toStr "a")]]
     [toStr "a", toStr "b"]).1,
   (no_quota_sheet_partitions_namespaces
     [[(kName, toStr "q1"), (kNamespace, toStr "a")]]
     [toStr "a", toStr "b"]).2 (by decide)⟩

/-- C5: when the quota namespaces are a subset of the cluster namespaces, the
quota-missing count plus the quota-covered count equals the number of distinct
cluster namespaces (immediate from the `Int` subtraction of line 245). -/
theorem quota_counts_partition (qrecs : List Dict) (allNs : List Str)
    (_hsub : ∀ x ∈ quotaNamespaceSet qrecs, x ∈ allNamespaceNamesSet allNs) :
    namespacesWithoutQuotasCount qrecs allNs + namespacesWithQuotasCount qrecs
      = ((allNamespaceNamesSet allNs).length : Int) := by
  unfold namespacesWithoutQuotasCount
  ring

/-- Witness for C5: one quota record on namespace `a`, cluster namespaces
`a, b`: 1 missing + 1 covered = 2 distinct namespaces. -/
theorem quota_counts_partition_witness :
    (∀ x ∈ quotaNamespaceSet [[(kName, toStr "q1"), (kNamespace, toStr "a")]],
      x ∈ allNamespaceNamesSet [toStr "a", toStr "b"]) ∧
    namespacesWithoutQuotasCount [[(kName, toStr "q1"), (kNamespace, toStr "a")]]
        [toStr "a", toStr "b"]
      + namespacesWithQuotasCount [[(kName, toStr "q1"), (kNamespace, toStr "a")]]
      = ((allNamespaceNamesSet [toStr "a", toStr "b"]).length : Int) :=
  ⟨by decide, quota_counts_partition
    [[(kName, toStr "q1"), (kNamespace, toStr "a")]]
    [toStr "a", toStr "b"] (by decide)⟩

/-- C10: the "namespaces without quota" sheet is sorted ascending, has no
duplicates, and contains exactly the cluster namespaces with no quota record
(it is built by sorting the set difference of line 302). -/
theorem no_quota_sheet_sorted_nodup (qrecs : List Dict) (allNs : List Str) :
    List.Sorted strLeR (namespacesWithoutQuotasList qrecs allNs) ∧
    (namespacesWithoutQuotasList qrecs allNs).Nodup ∧
    ∀ x, x ∈ namespacesWithoutQuotasList qrecs allNs ↔
      (x ∈ allNamespaceNamesSet allNs ∧ x ∉ quotaNamespaceSet qrecs) := by
  refine ⟨?_, ?_, fun x => mem_namespacesWithoutQuotasList qrecs allNs x⟩
  · unfold namespacesWithoutQuotasList
    by_cases hq : qrecs.isEmpty = true
    · rw [if_pos hq]
      exact List.sorted_insertionSort strLeR _
    · rw [if_neg hq]
      exact List.sorted_insertionSort strLeR _
  · unfold namespacesWithoutQuotasList
    by_cases hq : qrecs.isEmpty = true
    · rw [if_pos hq]
      exact (List.perm_insertionSort strLeR _).nodup_iff.mpr
        (List.nodup_dedup allNs)
    · rw [if_neg hq]
      exact (List.perm_insertionSort strLeR _).nodup_iff.mpr
        ((List.nodup_dedup allNs).filter _)

set_option maxRecDepth 100000 in
/-- C3: with the quota CLI output holding two blocks (namespace `a` with
`cpu=2`, namespace `b` with `cpu=4`) and the namespace list `a, b, c`, the
program computes quota-covered = 2, quota-missing = 1, and the
namespaces-without-quota sheet contains exactly the namespace `c`. -/
theorem end_to_end_quota_coverage_scenario :
    namespacesWithQuotasCount (get_namespace_quotas (some (toStr
      "\nName:compute-resources\nNamespace:a\nResourceQuota:\n  cpu=2\n---\n\nName:compute-resources\nNamespace:b\nResourceQuota:\n  cpu=4\n---\n")))
      = 2 ∧
    namespacesWithoutQuotasCount
      (get_namespace_quotas (some (toStr
        "\nName:compute-resources\nNamespace:a\nResourceQuota:\n  cpu=2\n---\n\nName:compute-resources\nNamespace:b\nResourceQuota:\n  cpu=4\n---\n")))
      (get_all_namespaces (some (toStr "a\nb\nc\n"))) = 1 ∧
    namespacesWithoutQuotasList
      (get_namespace_quotas (some (toStr
        "\nName:compute-resources\nNamespace:a\nResourceQuota:\n  cpu=2\n---\n\nName:compute-resources\nNamespace:b\nResourceQuota:\n  cpu=4\n---\n")))
      (get_all_namespaces (some (toStr "a\nb\nc\n"))) = [toStr "c"] := by
  refine ⟨by decide, by decide, by decide⟩

/-! ### The chart renderer and its caller (C6) -/

/-- C6: with a two-entry mapping whose counts sum to zero, `create_pie_chart`
produces no file and returns `None`, and the caller records no chart path (so
nothing is embedded); with a positive sum a chart is produced and its path
returned, even when one slice is zero. -/
theorem pie_chart_zero_sum_skipped (a b p : Str) (x y : Int)
    (files : List Str) :
    (x + y = 0 → create_pie_chart [(a, x), (b, y)] p = none ∧
       addChartIfPositive [(a, x), (b, y)] p files = files) ∧
    (0 < x + y → create_pie_chart [(a, x), (b, y)] p = some p) := by
  constructor
  · intro h
    constructor
    · unfold create_pie_chart
      simp [h]
    · unfold addChartIfPositive
      simp [h]
  · intro h
    unfold create_pie_chart
    have hne : ¬ (x + y = 0) := by omega
    simp only [List.map_cons, List.map_nil, List.sum_cons, List.sum_nil,
      add_zero]
    rw [if_neg hne]

/-- Witness for C6: `{A: 0, B: 0}` yields no chart and no recorded path;
`{A: 3, B: 0}` yields a chart path even though one slice is zero. -/
theorem pie_chart_zero_sum_skipped_witness :
    ((0 : Int) + 0 = 0 ∧
     create_pie_chart [(toStr "A", 0), (toStr "B", 0)] (toStr "q.png") = none ∧
     addChartIfPositive [(toStr "A", 0), (toStr "B", 0)] (toStr "q.png") []
       = []) ∧
    ((0 : Int) < 3 + 0 ∧
     create_pie_chart [(toStr "A", 3), (toStr "B", 0)] (toStr "q.png")
       = some (toStr "q.png")) :=
  ⟨⟨rfl, (pie_chart_zero_sum_skipped (toStr "A") (toStr "B") (toStr "q.png")
      0 0 []).1 rfl⟩,
   ⟨by decide, (pie_chart_zero_sum_skipped (toStr "A") (toStr "B")
      (toStr "q.png") 3 0 []).2 (by decide)⟩⟩

/-! ### The command runner on failures (C7) -/

/-- C7: on a non-zero exit status or a missing `oc` binary, `run_oc_command`
returns `None` without raising, and each collector turns that failure into an
empty collection so the run continues. -/
theorem cli_failure_yields_empty_collections (o : CmdOutcome)
    (h : o = CmdOutcome.exitError ∨ o = CmdOutcome.notFound) :
    run_oc_command o = none ∧
    get_namespace_quotas (run_oc_command o) = [] ∧
    get_pod_resource_limits (run_oc_command o) = .ok [] ∧
    get_all_namespaces (run_oc_command o) = [] := by
  rcases h with h | h <;> subst h <;> exact ⟨rfl, rfl, rfl, rfl⟩

/-- Witness for C7: the non-zero-exit failure. -/
theorem cli_failure_yields_empty_collections_witness :
    (CmdOutcome.exitError = CmdOutcome.exitError ∨
     CmdOutcome.exitError = CmdOutcome.notFound) ∧
    (run_oc_command CmdOutcome.exitError = none ∧
     get_namespace_quotas (run_oc_command CmdOutcome.exitError) = [] ∧
     get_pod_resource_limits (run_oc_command CmdOutcome.exitError) = .ok [] ∧
     get_all_namespaces (run_oc_command CmdOutcome.exitError) = []) :=
  ⟨Or.inl rfl, cli_failure_yields_empty_collections CmdOutcome.exitError
    (Or.inl rfl)⟩

/-! ### Chart-file cleanup on every exit path (C8) -/

theorem not_mem_removeFileIfExists_self (fs : List Str) (f : Str) :
    f ∉ removeFileIfExists fs f := by
  unfold removeFileIfExists
  by_cases h : fs.contains f = true
  · rw [if_pos h]
    intro hx
    have := (List.mem_filter.mp hx).2
    simp at this
  · rw [if_neg h]
    intro hx
    exact h (List.elem_iff.mpr hx)

theorem not_mem_removeFileIfExists_mono (fs : List Str) (g f : Str)
    (h : f ∉ fs) : f ∉ removeFileIfExists fs g := by
  unfold removeFileIfExists
  by_cases hc : fs.contains g = true
  · rw [if_pos hc]
    intro hx
    exact h (List.mem_filter.mp hx).1
  · rw [if_neg hc]
    exact h

theorem not_mem_cleanup_mono (chartFiles : List Str) (fs : List Str) (f : Str)
    (h : f ∉ fs) : f ∉ cleanupChartFiles fs chartFiles := by
  induction chartFiles generalizing fs with
  | nil => exact h
  | cons g gs ih =>
    exact ih (removeFileIfExists fs g) (not_mem_removeFileIfExists_mono fs g f h)

theorem not_mem_cleanup_of_mem (chartFiles : List Str) (fs : List Str)
    (f : Str) (h : f ∈ chartFiles) : f ∉ cleanupChartFiles fs chartFiles := by
  induction chartFiles generalizing fs with
  | nil => cases h
  | cons g gs ih =>
    rcases List.mem_cons.mp h with h | h
    · subst h
      exact not_mem_cleanup_mono gs (removeFileIfExists fs f) f
        (not_mem_removeFileIfExists_self fs f)
    · exact ih (removeFileIfExists fs g) h

/-- C8: whichever way the spreadsheet-writing `try` block exits, the
`finally` block runs and removes every recorded chart file, and the resulting
file system does not depend on the write outcome. -/
theorem chart_cleanup_on_every_exit_path (outcome : WriteOutcome)
    (fs chartFiles : List Str) (f : Str) (h : f ∈ chartFiles) :
    f ∉ reportWritePhase outcome fs chartFiles ∧
    reportWritePhase outcome fs chartFiles = cleanupChartFiles fs chartFiles := by
  cases outcome with
  | success => exact ⟨not_mem_cleanup_of_mem chartFiles fs f h, rfl⟩
  | failure => exact ⟨not_mem_cleanup_of_mem chartFiles fs f h, rfl⟩

/-- Witness for C8: a created chart file is gone after a failed write. -/
theorem chart_cleanup_on_every_exit_path_witness :
    (toStr "chart.png" ∈ [toStr "chart.png"]) ∧
    (toStr "chart.png" ∉ reportWritePhase WriteOutcome.failure
        [toStr "chart.png", toStr "report.xlsx"] [toStr "chart.png"] ∧
     reportWritePhase WriteOutcome.failure
        [toStr "chart.png", toStr "report.xlsx"] [toStr "chart.png"]
       = cleanupChartFiles [toStr "chart.png", toStr "report.xlsx"]
           [toStr "chart.png"]) :=
  ⟨by decide, chart_cleanup_on_every_exit_path WriteOutcome.failure
    [toStr "chart.png", toStr "report.xlsx"] [toStr "chart.png"]
    (toStr "chart.png") (by decide)⟩

end OcpReport
